import Mathlib

/-!
Verification of the manipulation-risk scoring engine of
`analyzer.py` (function `analyze_wallet_clustering`, lines 280-526).

The engine is embedded shallowly:

* `TradeEvent` models the normalized transaction dicts built at lines 304-316
  (timestamps already converted to instants; time is measured in seconds as `ℚ`).
* `TokenFacts` bundles the results of the three RPC-backed collaborator calls
  made at lines 439-451 (`simulate_token_authorities`,
  `get_top_holders_onchain`, `simulate_lp_stability`); `none` corresponds to
  `token_address is None`.
* The wall-clock read `datetime.utcnow()` at line 368 is modelled as the
  explicit parameter `now` (the value the clock returns during the call).
* Reason strings are modelled as tagged `Reason` values carrying the dynamic
  data interpolated into the corresponding f-strings.
* Python floats are modelled as exact rationals.
-/

/- Batteries seals the rational-number operations; reopen them so that concrete
runs of the engine can be evaluated inside proofs. -/
unseal Rat.add Rat.sub Rat.mul Rat.inv

/-- A normalized trade event (the dicts built at analyzer.py lines 310-316). -/
structure TradeEvent where
  wallet : String
  timestamp : ℚ
  amount : Option ℚ
deriving DecidableEq, Repr, Inhabited

/-- One entry of the `reasons` evidence list.  Each constructor tags one
`reasons.append(...)` site of `analyze_wallet_clustering` and carries the data
interpolated into the message; reasons produced by the RPC collaborators are
modelled as opaque `external` entries supplied inside `TokenFacts`. -/
inductive Reason where
  | sequentialBuying (maxInWindow total : ℕ)
  | newWalletConcentration (newCount uniqueCount : ℕ)
  | freshWalletSurge (recentNew recentUnique : ℕ)
  | highVolumeLowDiversity (txCount buyers : ℕ)
  | insufficientData
  | washTrading (cluster : List (String × ℕ))
  | noAnomalies
  | external (idx : ℕ)
deriving DecidableEq, Repr

/-- Results of the three token-level RPC checks performed at lines 439-451 when
`token_address is not None`: `simulate_token_authorities` (freeze / mint),
`get_top_holders_onchain` (top-10 share), `simulate_lp_stability` (LP risk),
together with the reason entries those collaborators returned. -/
structure TokenFacts where
  freeze_present : Bool
  mint_present : Bool
  top_10_share : ℚ
  lp_risk : ℚ
  factReasons : List Reason
deriving DecidableEq, Repr

/-- The tuple returned at line 526. -/
structure RiskAssessment where
  manipulation_score : ℚ
  reasons : List Reason
  freeze_present : Bool
  mint_present : Bool
  top_10_share : ℚ
deriving DecidableEq, Repr

/-- Python's built-in `min` on two floats. -/
def pymin (a b : ℚ) : ℚ := if a ≤ b then a else b

/-- Python's built-in `max` on two floats. -/
def pymax (a b : ℚ) : ℚ := if b ≤ a then a else b

/-- Comparison key of the sort at line 327 (`key=lambda x: x["timestamp"]`). -/
def tsLe (a b : TradeEvent) : Prop := a.timestamp ≤ b.timestamp

instance : DecidableRel tsLe := fun a b => inferInstanceAs (Decidable (a.timestamp ≤ b.timestamp))

instance : IsTotal TradeEvent tsLe := ⟨fun a b => le_total a.timestamp b.timestamp⟩

instance : IsTrans TradeEvent tsLe := ⟨fun _ _ _ h1 h2 => le_trans h1 h2⟩

/-- Line 327: `norm_tx.sort(key=lambda x: x["timestamp"])`.  Python's sort is
stable; `List.insertionSort` is stable as well, so it yields the same list. -/
def sortTs (l : List TradeEvent) : List TradeEvent := List.insertionSort tsLe l

/-- Python's built-in `max` on two ints. -/
def pymaxNat (a b : ℕ) : ℕ := if b ≤ a then a else b

/-- The while loop at lines 334-335: advance the left pointer while the window
spans more than 2 seconds.  The fuel argument is a termination device only:
called with fuel `e - start` it never runs out, because the Python condition
fails as soon as `start` reaches `e` (`ts[e] - ts[e] > 2` is `0 > 2`). -/
def advanceStart (ts : List ℚ) (e : ℕ) : ℕ → ℕ → ℕ
  | start, 0 => start
  | start, fuel + 1 =>
    if 2 < ts.getD e 0 - ts.getD start 0 then advanceStart ts e (start + 1) fuel else start

/-- The loop `for end in range(total)` at lines 333-338 (two-pointer sliding
window); the fuel counts the remaining iterations, `ts.length - e`.
`if maxW < c then c else maxW` is the update at lines 337-338. -/
def twoPointerGo (ts : List ℚ) : ℕ → ℕ → ℕ → ℕ → ℕ
  | _start, _e, maxW, 0 => maxW
  | start, e, maxW, fuel + 1 =>
    let s := advanceStart ts e start (e - start)
    twoPointerGo ts s (e + 1) (if maxW < e - s + 1 then e - s + 1 else maxW) fuel

/-- Lines 329-338: `max_in_window`, initialized to 1. -/
def maxInWindow (ts : List ℚ) : ℕ := twoPointerGo ts 0 0 1 ts.length

/-- Line 340: `clustered_fraction = max_in_window / total` (on the sorted list `s`). -/
def clusteredFraction (s : List TradeEvent) : ℚ :=
  (maxInWindow (s.map (·.timestamp)) : ℚ) / (s.length : ℚ)

/-- Lines 321 and 343-348: sequential risk (0 by default when there is no data). -/
def sequentialRisk (s : List TradeEvent) : ℚ :=
  if s.length = 0 then 0
  else if clusteredFraction s ≤ 1/2 then 0
  else if 1 ≤ clusteredFraction s then 1
  else (clusteredFraction s - 1/2) / (1/2)

/-- `dict.fromkeys` / first-occurrence deduplication, with an accumulator of
already seen keys. -/
def dedupFirstAux (seen : List String) : List String → List String
  | [] => []
  | a :: l => if a ∈ seen then dedupFirstAux seen l else a :: dedupFirstAux (a :: seen) l

/-- Distinct elements in first-occurrence order (line 393 `dict.fromkeys`; also
the value-level content of the sets built at lines 357 and 417). -/
def dedupFirst (l : List String) : List String := dedupFirstAux [] l

/-- Lines 361-366: earliest timestamp observed for wallet `w` (the value stored
in `first_tx_times[w]`; 0 is returned for wallets that do not occur, a case the
code never queries). -/
def firstTs (s : List TradeEvent) (w : String) : ℚ :=
  match (s.filter (fun e => decide (e.wallet = w))).map (·.timestamp) with
  | [] => 0
  | t :: ts => ts.foldl pymin t

/-- Lines 375-376 / 399-400: `age_hours = (now - first_ts)/3600 < 24`, i.e.
`now - first_ts < 86400` seconds. -/
def isFresh (now : ℚ) (s : List TradeEvent) (w : String) : Bool :=
  decide (now - firstTs s w < 86400)

/-- Line 357: the distinct wallets of the sample. -/
def uniqueWallets (s : List TradeEvent) : List String := dedupFirst (s.map (·.wallet))

/-- Lines 370-377: number of distinct wallets younger than 24 hours. -/
def newWalletCount (now : ℚ) (s : List TradeEvent) : ℕ :=
  ((uniqueWallets s).filter (isFresh now s)).length

/-- Line 379: `new_wallet_fraction = new_wallet_count / max(len(unique_wallets), 1)`. -/
def newWalletFraction (now : ℚ) (s : List TradeEvent) : ℚ :=
  (newWalletCount now s : ℚ) / (pymaxNat (uniqueWallets s).length 1 : ℕ)

/-- Line 382: wallet-age risk before the fresh-wallet-surge adjustment. -/
def walletAgeRisk0 (now : ℚ) (s : List TradeEvent) : ℚ :=
  pymin 1 (newWalletFraction now s)

/-- Line 390: wallets of the last up-to-50 trades of the (sorted) sample,
`norm_tx[-50:]`. -/
def recentWalletsOrdered (s : List TradeEvent) : List String :=
  (s.drop (s.length - 50)).map (·.wallet)

/-- Line 393: distinct recent wallets in first-occurrence order. -/
def recentUniqueWallets (s : List TradeEvent) : List String :=
  dedupFirst (recentWalletsOrdered s)

/-- Lines 394-401: recent distinct wallets younger than 24 hours. -/
def recentNewCount (now : ℚ) (s : List TradeEvent) : ℕ :=
  ((recentUniqueWallets s).filter (isFresh now s)).length

/-- Line 403: `recent_fraction = recent_new_count / max(len(recent_unique_wallets), 1)`. -/
def recentFraction (now : ℚ) (s : List TradeEvent) : ℚ :=
  (recentNewCount now s : ℚ) / (pymaxNat (recentUniqueWallets s).length 1 : ℕ)

/-- Line 404: the fresh-wallet-surge condition. -/
def surgeFires (now : ℚ) (s : List TradeEvent) : Bool :=
  decide (1/2 < recentFraction now s) && decide (10 ≤ (recentUniqueWallets s).length)

/-- Lines 322, 382, 404-411: final wallet-age risk (0 when there is no data;
bumped by the surge check via `min(1.0, max(wallet_age_risk, recent_fraction))`). -/
def walletAgeRisk (now : ℚ) (s : List TradeEvent) : ℚ :=
  if s.length = 0 then 0
  else if surgeFires now s then pymin 1 (pymax (walletAgeRisk0 now s) (recentFraction now s))
  else walletAgeRisk0 now s

/-- Lines 414-415: `latest_ts` and the 5-minute window start (on the sorted list). -/
def latestTs (s : List TradeEvent) : ℚ := (s.getLastD default).timestamp

/-- Line 416: trades of the last 5 minutes. -/
def last5m (s : List TradeEvent) : List TradeEvent :=
  s.filter (fun e => decide (latestTs s - 300 ≤ e.timestamp))

/-- Line 419: `tx_count_5m`. -/
def txCount5m (s : List TradeEvent) : ℕ := (last5m s).length

/-- Lines 417-420: distinct buyers of the last 5 minutes. -/
def uniqueBuyers5m (s : List TradeEvent) : List String :=
  dedupFirst ((last5m s).map (·.wallet))

/-- Lines 323 and 424: the high-volume/low-diversity flag (false when there is
no data, mirroring the enclosing `if total > 0`). -/
def hvldFires (s : List TradeEvent) : Bool :=
  if s.length = 0 then false
  else decide (8 ≤ txCount5m s) && decide ((uniqueBuyers5m s).length < 10)

/-- Line 425: `hvld_risk = 1.0 if high_volume_low_diversity else 0.0`. -/
def hvldRisk (s : List TradeEvent) : ℚ := if hvldFires s then 1 else 0

/-- Lines 434-451: defaults / extraction of the token-level facts. -/
def freezeOf : Option TokenFacts → Bool
  | none => false
  | some f => f.freeze_present

def mintOf : Option TokenFacts → Bool
  | none => false
  | some f => f.mint_present

def top10Of : Option TokenFacts → ℚ
  | none => 0
  | some f => f.top_10_share

def lpRiskOf : Option TokenFacts → ℚ
  | none => 0
  | some f => f.lp_risk

def factReasonsOf : Option TokenFacts → List Reason
  | none => []
  | some f => f.factReasons

/-- Lines 464-467: trades per wallet.  (`wallet_trade_counts[w]` counts the
occurrences of `w` in `norm_tx`.) -/
def countWallet (s : List TradeEvent) (w : String) : ℕ :=
  (s.filter (fun e => decide (e.wallet = w))).length

/-- The dict `wallet_trade_counts` as an association list: keys in insertion
order (first occurrence in the sorted `norm_tx`), each with its count. -/
def walletTradeCounts (s : List TradeEvent) : List (String × ℕ) :=
  (uniqueWallets s).map (fun w => (w, countWallet s w))

/-- Comparison used at lines 469-471: sort by count, descending. -/
def cntGe (a b : String × ℕ) : Prop := b.2 ≤ a.2

instance : DecidableRel cntGe := fun a b => inferInstanceAs (Decidable (b.2 ≤ a.2))

instance : IsTotal (String × ℕ) cntGe := ⟨fun a b => le_total b.2 a.2⟩

instance : IsTrans (String × ℕ) cntGe := ⟨fun _ _ _ h1 h2 => le_trans h2 h1⟩

/-- Lines 469-471: `sorted(wallet_trade_counts.items(), key=..., reverse=True)`.
Python's `sorted` with `reverse=True` is stable descending, as is a stable
insertion sort under the reflexive descending comparison. -/
def sortedWallets (s : List TradeEvent) : List (String × ℕ) :=
  List.insertionSort cntGe (walletTradeCounts s)

/-- Line 472: `top_cluster = sorted_wallets[:3]`. -/
def topCluster (s : List TradeEvent) : List (String × ℕ) := (sortedWallets s).take 3

/-- Line 473: `top_cluster_trades`. -/
def topClusterTrades (s : List TradeEvent) : ℕ := ((topCluster s).map (·.2)).sum

/-- Line 474: `wash_fraction = top_cluster_trades / total if total else 0.0`. -/
def washFraction (s : List TradeEvent) : ℚ :=
  if s.length = 0 then 0 else (topClusterTrades s : ℚ) / (s.length : ℚ)

/-- Line 476: the wash-trading condition
`wash_fraction >= 0.6 and all(c >= 2 for _, c in top_cluster)`. -/
def washFires (s : List TradeEvent) : Bool :=
  decide ((3 : ℚ)/5 ≤ washFraction s) && (topCluster s).all (fun p => decide (2 ≤ p.2))

/-- Lines 475-477: `wash_trading_risk`. -/
def washRisk (s : List TradeEvent) : ℚ := if washFires s then 1 else 0

/-- Lines 455-460: the base risk score (neutral floor 50 with no transactions). -/
def baseRiskScore (s : List TradeEvent) : ℚ :=
  if 0 < s.length then sequentialRisk s * 100 else 50

/-- Lines 486-491: the additive modifier. -/
def modifier (now : ℚ) (s : List TradeEvent) (facts : Option TokenFacts) : ℚ :=
  walletAgeRisk now s * 10 + hvldRisk s * 20 + lpRiskOf facts * 10 + washRisk s * 10

/-- Line 438: `honeypot_risk = 0.0` (never reassigned; the override at line 496
is dead code). -/
def honeypotRisk : ℚ := 0

/-- Line 492: `manipulation_score = base_risk_score + modifier`. -/
def scoreAfterModifiers (now : ℚ) (s : List TradeEvent) (facts : Option TokenFacts) : ℚ :=
  baseRiskScore s + modifier now s facts

/-- Lines 496-497: honeypot override (condition `0 > 0` is never true). -/
def scoreAfterHoneypot (now : ℚ) (s : List TradeEvent) (facts : Option TokenFacts) : ℚ :=
  if 0 < honeypotRisk then 100 else scoreAfterModifiers now s facts

/-- Lines 508-509: top-holder bonus. -/
def scoreAfterTopHolder (now : ℚ) (s : List TradeEvent) (facts : Option TokenFacts) : ℚ :=
  if 30 < top10Of facts then pymin 100 (scoreAfterHoneypot now s facts + 10)
  else scoreAfterHoneypot now s facts

/-- Lines 514-515: zero-data floor. -/
def scoreAfterZeroFloor (now : ℚ) (s : List TradeEvent) (facts : Option TokenFacts) : ℚ :=
  if s.length = 0 ∧ scoreAfterTopHolder now s facts < 85 then 85
  else scoreAfterTopHolder now s facts

/-- Lines 521-522: authority/liquidity floor. -/
def scoreAfterAuthorityFloor (now : ℚ) (s : List TradeEvent) (facts : Option TokenFacts) : ℚ :=
  if 0 < s.length ∧ (0 < lpRiskOf facts ∨ freezeOf facts = true) ∧
      scoreAfterZeroFloor now s facts < 85 then 85
  else scoreAfterZeroFloor now s facts

/-- Line 524: final clamp `max(0.0, min(100.0, manipulation_score))`. -/
def manipulationScoreOf (now : ℚ) (s : List TradeEvent) (facts : Option TokenFacts) : ℚ :=
  pymax 0 (pymin 100 (scoreAfterAuthorityFloor now s facts))

/-- The `reasons` list as collected before the fallback at line 499, in the
order the `append`/`extend` sites execute: sequential buying (350), new-wallet
concentration (383), fresh-wallet surge (405), high-volume/low-diversity (428)
- all inside `if total > 0` -, then the collaborator reasons (443, 447, 451),
the insufficient-data message (461) and the wash-trading message (479). -/
def reasonsRaw (now : ℚ) (s : List TradeEvent) (facts : Option TokenFacts) : List Reason :=
  (if s.length = 0 then []
   else
     (if 0 < sequentialRisk s then
        [Reason.sequentialBuying (maxInWindow (s.map (·.timestamp))) s.length] else [])
     ++ (if 1/2 < walletAgeRisk0 now s then
           [Reason.newWalletConcentration (newWalletCount now s) (uniqueWallets s).length]
         else [])
     ++ (if surgeFires now s then
           [Reason.freshWalletSurge (recentNewCount now s) (recentUniqueWallets s).length]
         else [])
     ++ (if hvldFires s then
           [Reason.highVolumeLowDiversity (txCount5m s) (uniqueBuyers5m s).length] else []))
  ++ factReasonsOf facts
  ++ (if s.length = 0 then [Reason.insufficientData] else [])
  ++ (if washFires s then [Reason.washTrading (topCluster s)] else [])

/-- Lines 499-504: a neutral message is appended when no detector fired. -/
def reasonsOf (now : ℚ) (s : List TradeEvent) (facts : Option TokenFacts) : List Reason :=
  if reasonsRaw now s facts = [] then [Reason.noAnomalies] else reasonsRaw now s facts

/-- `analyze_wallet_clustering` (lines 280-526): the engine as a function of
the normalized trade events, the token-level facts (`none` when
`token_address is None`) and the instant `now` returned by the
`datetime.utcnow()` call at line 368. -/
def analyze (transactions : List TradeEvent) (facts : Option TokenFacts) (now : ℚ) :
    RiskAssessment :=
  let s := sortTs transactions
  { manipulation_score := manipulationScoreOf now s facts
    reasons := reasonsOf now s facts
    freeze_present := freezeOf facts
    mint_present := mintOf facts
    top_10_share := top10Of facts }

/-! ### Claim-side definitions (written from the specification's wording) -/

/-- Claim side (C6): the number of trades of `l` whose timestamps fall within
the 2-second span `[t, t + 2]`, boundaries inclusive. -/
def countInSpan (l : List TradeEvent) (t : ℚ) : ℕ :=
  l.countP (fun e => decide (t ≤ e.timestamp ∧ e.timestamp ≤ t + 2))

/-- `countInSpan` on a bare timestamp list. -/
def countInSpanQ (ts : List ℚ) (t : ℚ) : ℕ :=
  ts.countP (fun x => decide (t ≤ x ∧ x ≤ t + 2))

/-- Descending order on `ℕ`. -/
def natGe (a b : ℕ) : Prop := b ≤ a

instance : DecidableRel natGe := fun a b => inferInstanceAs (Decidable (b ≤ a))

instance : IsTotal ℕ natGe := ⟨fun a b => le_total b a⟩

instance : IsTrans ℕ natGe := ⟨fun _ _ _ h1 h2 => le_trans h2 h1⟩

instance : IsAntisymm ℕ natGe := ⟨fun _ _ h1 h2 => Nat.le_antisymm h2 h1⟩

/-- Claim side (C7): the multiset of per-wallet trade counts of `l`, one entry
per distinct wallet. -/
def specWalletCounts (l : List TradeEvent) : List ℕ :=
  (l.map (·.wallet)).dedup.map (fun w => (l.filter (fun e => decide (e.wallet = w))).length)

/-- Claim side (C7): the per-wallet trade counts in descending order. -/
def specCountsSorted (l : List TradeEvent) : List ℕ :=
  List.insertionSort natGe (specWalletCounts l)

/-- Claim side (C7): the trade counts of the top-3 wallets by trade count. -/
def specTop3 (l : List TradeEvent) : List ℕ := (specCountsSorted l).take 3

/-! ### Proof-side auxiliaries for the sliding-window analysis -/

/-- The least left index whose window ending at `e` spans at most 2 seconds
(`s = e` always qualifies, since the span is then 0). -/
def minStart (ts : List ℚ) (e : ℕ) : ℕ :=
  Nat.find (p := fun s => ts.getD e 0 - ts.getD s 0 ≤ 2) ⟨e, by simp only []; rw [sub_self]; norm_num⟩

/-- The largest window count `e' - minStart e' + 1` over the `fuel` indices
starting at `e` (0 when no index is considered). -/
def windowMaxFrom (ts : List ℚ) : ℕ → ℕ → ℕ
  | _, 0 => 0
  | e, fuel + 1 => max (e - minStart ts e + 1) (windowMaxFrom ts (e + 1) fuel)

/-! ### Heap-level model of the call (for the framing claim)

The heap is a list of event records and the caller passes addresses into it.
Lines 306-316 read each record through its address and allocate a fresh copy
for `norm_tx` (modelled by appending the copies to the heap), and the in-place
sort at line 327 permutes only the engine's own list of fresh references, so
no pre-existing cell is ever written. -/

def analyzeState (heap : List TradeEvent) (txRefs : List ℕ) (facts : Option TokenFacts)
    (now : ℚ) : List TradeEvent × RiskAssessment :=
  let events := txRefs.map (fun r => heap.getD r default)
  (heap ++ events, analyze events facts now)

/-! ### Concrete inputs used by counterexamples and witnesses -/

/-- Two trades, far apart, from two wallets. -/
def exC1 : List TradeEvent := [⟨"a", 0, none⟩, ⟨"b", 10000, none⟩]

/-- 49 trades shared by both C5 lists: one more trade of wallet `B`, then 48
fresh wallets (relative to `now = 1000000`), each trading once, 400 s apart. -/
def exC5rest : List TradeEvent :=
  ⟨"B", 100, none⟩ ::
    (List.range 48).map (fun i => ⟨"w" ++ toString i, ((913601 + 400 * i : ℕ) : ℚ), none⟩)

/-- 51 trades: wallets `A` and `B` trade simultaneously at time 0, then `exC5rest`. -/
def exC5a : List TradeEvent := ⟨"A", 0, none⟩ :: ⟨"B", 0, none⟩ :: exC5rest

/-- The same 51 trades with the two time-0 events swapped. -/
def exC5b : List TradeEvent := ⟨"B", 0, none⟩ :: ⟨"A", 0, none⟩ :: exC5rest

/-- A single trade. -/
def wC4 : List TradeEvent := [⟨"a", 0, none⟩]

/-- Token facts with a live freeze authority and no other risk. -/
def wC4facts : TokenFacts := ⟨true, false, 0, 0, []⟩

/-- Two trades with distinct timestamps, and their transposition. -/
def wC5p : List TradeEvent := [⟨"a", 0, none⟩, ⟨"b", 5, none⟩]

/-- See `wC5p`. -/
def wC5q : List TradeEvent := [⟨"b", 5, none⟩, ⟨"a", 0, none⟩]

/-- Two trades 10 seconds apart. -/
def wC6 : List TradeEvent := [⟨"a", 0, none⟩, ⟨"b", 10, none⟩]

/-- Four trades: wallets `a` and `b` trade twice each. -/
def wC7 : List TradeEvent :=
  [⟨"a", 0, none⟩, ⟨"a", 3, none⟩, ⟨"b", 10, none⟩, ⟨"b", 13, none⟩]

/-- Ten fresh wallets (relative to `now = 10000`), each trading once. -/
def wC8 : List TradeEvent :=
  (List.range 10).map (fun i => ⟨"w" ++ toString i, ((400 * i : ℕ) : ℚ), none⟩)

/-- Eight trades of a single wallet within 7 seconds. -/
def wC9 : List TradeEvent := (List.range 8).map (fun i => ⟨"a", ((i : ℕ) : ℚ), none⟩)

/-! ### Helper lemmas -/

theorem pymin_eq_min (a b : ℚ) : pymin a b = min a b := by
  simp [pymin, min_def]

theorem pymax_eq_max (a b : ℚ) : pymax a b = max a b := by
  rw [pymax, max_def]
  by_cases h : b ≤ a
  · by_cases h2 : a ≤ b
    · simp [h, h2, le_antisymm h2 h]
    · simp [h, h2]
  · simp [h, le_of_not_le h]

theorem pymaxNat_eq_max (a b : ℕ) : pymaxNat a b = max a b := by
  rw [pymaxNat, Nat.max_def]
  by_cases h : b ≤ a
  · by_cases h2 : a ≤ b
    · simp [h, h2, Nat.le_antisymm h2 h]
    · simp [h, h2]
  · simp [h, Nat.le_of_not_le h]

theorem sortTs_perm (l : List TradeEvent) : (sortTs l).Perm l :=
  List.perm_insertionSort tsLe l

theorem sortTs_sorted (l : List TradeEvent) : (sortTs l).Sorted tsLe :=
  List.sorted_insertionSort tsLe l

theorem sortTs_length (l : List TradeEvent) : (sortTs l).length = l.length :=
  (sortTs_perm l).length_eq

theorem sortTs_ne_nil {l : List TradeEvent} (hl : l ≠ []) : sortTs l ≠ [] := by
  intro h
  exact hl (List.eq_nil_of_length_eq_zero (by rw [← sortTs_length l, h, List.length_nil]))

theorem mem_dedupFirstAux {x : String} :
    ∀ (l seen : List String), x ∈ dedupFirstAux seen l ↔ x ∈ l ∧ x ∉ seen := by
  intro l
  induction l with
  | nil => intro seen; simp [dedupFirstAux]
  | cons a l ih =>
    intro seen
    rw [dedupFirstAux]
    by_cases ha : a ∈ seen
    · rw [if_pos ha, ih]
      constructor
      · exact fun ⟨h1, h2⟩ => ⟨List.mem_cons_of_mem a h1, h2⟩
      · rintro ⟨h1, h2⟩
        rcases List.mem_cons.mp h1 with rfl | h1
        · exact absurd ha h2
        · exact ⟨h1, h2⟩
    · rw [if_neg ha]
      constructor
      · intro h
        rcases List.mem_cons.mp h with rfl | h
        · exact ⟨List.mem_cons_self x l, ha⟩
        · rcases (ih (a :: seen)).mp h with ⟨h1, h2⟩
          exact ⟨List.mem_cons_of_mem a h1, fun hx => h2 (List.mem_cons_of_mem a hx)⟩
      · rintro ⟨h1, h2⟩
        by_cases hxa : x = a
        · exact hxa ▸ List.mem_cons_self a _
        · rcases List.mem_cons.mp h1 with rfl | h1
          · exact absurd rfl hxa
          · exact List.mem_cons_of_mem a ((ih (a :: seen)).mpr
              ⟨h1, fun hx => (List.mem_cons.mp hx).elim hxa h2⟩)

theorem mem_dedupFirst {x : String} (l : List String) : x ∈ dedupFirst l ↔ x ∈ l := by
  rw [dedupFirst, mem_dedupFirstAux]
  simp

theorem nodup_dedupFirstAux : ∀ (l seen : List String), (dedupFirstAux seen l).Nodup := by
  intro l
  induction l with
  | nil => intro seen; simp [dedupFirstAux]
  | cons a l ih =>
    intro seen
    rw [dedupFirstAux]
    by_cases ha : a ∈ seen
    · rw [if_pos ha]; exact ih seen
    · rw [if_neg ha]
      refine List.nodup_cons.mpr ⟨fun hmem => ?_, ih (a :: seen)⟩
      exact ((mem_dedupFirstAux l (a :: seen)).mp hmem).2 (List.mem_cons_self a seen)

theorem nodup_dedupFirst (l : List String) : (dedupFirst l).Nodup :=
  nodup_dedupFirstAux l []

theorem dedupFirst_toFinset (l : List String) : (dedupFirst l).toFinset = l.toFinset := by
  ext x
  simp [List.mem_toFinset, mem_dedupFirst]

theorem dedupFirst_length (l : List String) : (dedupFirst l).length = l.toFinset.card := by
  rw [← dedupFirst_toFinset, List.toFinset_card_of_nodup (nodup_dedupFirst l)]

theorem dedupFirst_perm_dedup (l : List String) : (dedupFirst l).Perm l.dedup := by
  apply List.perm_of_nodup_nodup_toFinset_eq (nodup_dedupFirst l) l.nodup_dedup
  rw [dedupFirst_toFinset]
  ext x
  simp [List.mem_toFinset, List.mem_dedup]

theorem walletAgeRisk0_le_one (now : ℚ) (s : List TradeEvent) : walletAgeRisk0 now s ≤ 1 := by
  rw [walletAgeRisk0, pymin_eq_min]
  exact min_le_left 1 _

theorem recentFraction_le_one (now : ℚ) (s : List TradeEvent) : recentFraction now s ≤ 1 := by
  rw [recentFraction]
  have hle : recentNewCount now s ≤ pymaxNat (recentUniqueWallets s).length 1 := by
    rw [pymaxNat_eq_max]
    exact le_trans (List.length_filter_le _ _) (le_max_left _ _)
  have hpos : (0 : ℚ) ≤ (pymaxNat (recentUniqueWallets s).length 1 : ℕ) := by positivity
  exact div_le_one_of_le₀ (by exact_mod_cast hle) hpos

/-! ### Claim theorems -/

/-- C1 (counterexample): the engine's result is not a function of the
caller-supplied inputs alone: the score depends on the instant at which the
wall clock is read at line 368 (`datetime.utcnow()`).  With the same two-trade
history and no token facts, a run with clock value 20000 s scores 10 while a
run with clock value 1000000 s scores 0, so "now" is read from the system
clock rather than being an explicit parameter. -/
theorem clock_dependence_counterexample :
    (analyze exC1 none 20000).manipulation_score ≠
      (analyze exC1 none 1000000).manipulation_score := by
  decide

/-- C1 (amended): the engine is deterministic once the clock read at line 368
is modelled as an explicit input: two invocations that agree on the trade
events, the token facts and the current instant return identical results
(same score, same reasons).  When `token_address is None` it performs no I/O;
in the source, however, "now" is read from the system clock inside the
function and the token-facts path performs network RPC calls. -/
theorem determinism_given_instant (l : List TradeEvent) (facts : Option TokenFacts)
    (now : ℚ) (a b : RiskAssessment)
    (ha : a = analyze l facts now) (hb : b = analyze l facts now) : a = b :=
  ha.trans hb.symm

theorem determinism_given_instant_witness : analyze [] none 0 = analyze [] none 0 :=
  determinism_given_instant [] none 0 (analyze [] none 0) (analyze [] none 0) rfl rfl

/-- C2: for every input - any trade list, any (possibly absent) token facts,
any instant - the returned manipulation score lies in [0, 100] (the clamp at
line 524). -/
theorem clamp_invariant (l : List TradeEvent) (facts : Option TokenFacts) (now : ℚ) :
    0 ≤ (analyze l facts now).manipulation_score ∧
      (analyze l facts now).manipulation_score ≤ 100 := by
  have h : (analyze l facts now).manipulation_score
      = pymax 0 (pymin 100 (scoreAfterAuthorityFloor now (sortTs l) facts)) := rfl
  rw [h, pymax_eq_max, pymin_eq_min]
  exact ⟨le_max_left 0 _, max_le (by norm_num) (min_le_left _ _)⟩

/-- C3: with an empty trade list and no token facts the score is exactly 85
(base 50 at line 460, zero-data floor at lines 514-515) and the reasons
contain the insufficient-transaction-data entry appended at line 461. -/
theorem zero_trade_floor (now : ℚ) :
    (analyze [] none now).manipulation_score = 85 ∧
      Reason.insufficientData ∈ (analyze [] none now).reasons := by
  have hs : sortTs [] = ([] : List TradeEvent) := rfl
  have hwar : walletAgeRisk now (sortTs []) = 0 := by
    rw [hs, walletAgeRisk]
    simp
  have hhv : hvldRisk (sortTs []) = 0 := rfl
  have hwash : washRisk (sortTs []) = 0 := rfl
  have hmod : modifier now (sortTs []) none = 0 := by
    rw [modifier, hwar, hhv, hwash, lpRiskOf]
    norm_num
  have hbase : baseRiskScore (sortTs []) = 50 := by
    rw [hs, baseRiskScore]
    simp
  have h1 : scoreAfterModifiers now (sortTs []) none = 50 := by
    rw [scoreAfterModifiers, hmod, hbase]
    norm_num
  have h2 : scoreAfterHoneypot now (sortTs []) none = 50 := by
    rw [scoreAfterHoneypot, if_neg (by rw [honeypotRisk]; exact lt_irrefl 0), h1]
  have h3 : scoreAfterTopHolder now (sortTs []) none = 50 := by
    rw [scoreAfterTopHolder, top10Of, if_neg (by norm_num), h2]
  have h4 : scoreAfterZeroFloor now (sortTs []) none = 85 := by
    rw [scoreAfterZeroFloor, if_pos ⟨by rw [hs]; rfl, by rw [h3]; norm_num⟩]
  have h5 : scoreAfterAuthorityFloor now (sortTs []) none = 85 := by
    rw [scoreAfterAuthorityFloor, if_neg (fun hc => by rw [hs] at hc; exact absurd hc.1 (by simp)), h4]
  constructor
  · have hscore : (analyze [] none now).manipulation_score
        = pymax 0 (pymin 100 (scoreAfterAuthorityFloor now (sortTs []) none)) := rfl
    rw [hscore, h5, pymax_eq_max, pymin_eq_min]
    norm_num
  · have hraw : reasonsRaw now (sortTs []) none = [Reason.insufficientData] := by
      rw [reasonsRaw, hs]
      have hwf : washFires ([] : List TradeEvent) = false := rfl
      simp [factReasonsOf, hwf]
    have hreasons : (analyze [] none now).reasons = reasonsOf now (sortTs []) none := rfl
    rw [hreasons, reasonsOf, hraw]
    simp

/-- C4: as soon as there is at least one trade, a positive liquidity-lock risk
or a live freeze authority forces a final score of at least 85 (the floor at
lines 521-522), no matter how low the base clustering score is. -/
theorem authority_liquidity_floor (l : List TradeEvent) (facts : Option TokenFacts)
    (now : ℚ) (hl : l ≠ []) (hrisk : 0 < lpRiskOf facts ∨ freezeOf facts = true) :
    85 ≤ (analyze l facts now).manipulation_score := by
  have hlen : 0 < (sortTs l).length := by
    rw [sortTs_length]
    exact List.length_pos.mpr hl
  have hfloor : 85 ≤ scoreAfterAuthorityFloor now (sortTs l) facts := by
    rw [scoreAfterAuthorityFloor]
    by_cases hlt : scoreAfterZeroFloor now (sortTs l) facts < 85
    · rw [if_pos ⟨hlen, hrisk, hlt⟩]
    · rw [if_neg (fun hc => hlt hc.2.2)]
      exact not_lt.mp hlt
  have h : (analyze l facts now).manipulation_score
      = pymax 0 (pymin 100 (scoreAfterAuthorityFloor now (sortTs l) facts)) := rfl
  rw [h, pymax_eq_max, pymin_eq_min]
  exact le_max_of_le_right (le_min (by norm_num) hfloor)

theorem authority_liquidity_floor_witness :
    85 ≤ (analyze wC4 (some wC4facts) 0).manipulation_score :=
  authority_liquidity_floor wC4 (some wC4facts) 0 (by decide) (Or.inr rfl)

/-- C10: the engine never mutates its input.  In the heap model, running the
engine extends the heap with the fresh `norm_tx` copies allocated at lines
306-316 and leaves every pre-existing cell untouched (the in-place sort at
line 327 rearranges only the engine's own reference list), and the result is
exactly the pure engine applied to the values read from the caller's
addresses. -/
theorem no_input_mutation (heap : List TradeEvent) (txRefs : List ℕ)
    (facts : Option TokenFacts) (now : ℚ) :
    (analyzeState heap txRefs facts now).1.take heap.length = heap ∧
      (∀ i, i < heap.length →
        (analyzeState heap txRefs facts now).1.getD i default = heap.getD i default) ∧
      (analyzeState heap txRefs facts now).2
        = analyze (txRefs.map (fun r => heap.getD r default)) facts now := by
  refine ⟨List.take_left heap _, fun i hi => List.getD_append heap _ default i hi, rfl⟩

theorem no_input_mutation_witness :
    (analyzeState [⟨"a", 0, none⟩] [0] none 0).1.getD 0 default
      = ((⟨"a", 0, none⟩ : TradeEvent) : TradeEvent) :=
  (no_input_mutation [⟨"a", 0, none⟩] [0] none 0).2.1 0 (by decide)

theorem sorted_perm_eq_of_nodup_ts :
    ∀ {l₁ l₂ : List TradeEvent}, l₁.Sorted tsLe → l₂.Sorted tsLe → l₁.Perm l₂ →
      (l₁.map (·.timestamp)).Nodup → l₁ = l₂ := by
  intro l₁
  induction l₁ with
  | nil =>
    intro l₂ _ _ hp _
    exact (hp.nil_eq).symm ▸ rfl
  | cons a t₁ ih =>
    intro l₂ hs₁ hs₂ hp hnd
    cases l₂ with
    | nil => exact absurd hp.symm.nil_eq (by simp)
    | cons b t₂ =>
      have hab : a = b := by
        by_contra hne
        have ha2 : a ∈ b :: t₂ := hp.mem_iff.mp (List.mem_cons_self a t₁)
        have hb1 : b ∈ a :: t₁ := hp.mem_iff.mpr (List.mem_cons_self b t₂)
        have hat2 : a ∈ t₂ := (List.mem_cons.mp ha2).resolve_left hne
        have hbt1 : b ∈ t₁ := (List.mem_cons.mp hb1).resolve_left (fun h => hne h.symm)
        have h1 : a.timestamp ≤ b.timestamp :=
          (List.sorted_cons.mp hs₁).1 b hbt1
        have h2 : b.timestamp ≤ a.timestamp :=
          (List.sorted_cons.mp hs₂).1 a hat2
        have heq : a.timestamp = b.timestamp := le_antisymm h1 h2
        have : a.timestamp ∈ t₁.map (·.timestamp) :=
          heq ▸ List.mem_map_of_mem (·.timestamp) hbt1
        exact (List.nodup_cons.mp hnd).1 this
      subst hab
      have hperm : t₁.Perm t₂ := hp.cons_inv
      have := ih (List.sorted_cons.mp hs₁).2 (List.sorted_cons.mp hs₂).2 hperm
        (List.nodup_cons.mp hnd).2
      rw [this]

set_option maxRecDepth 100000 in
/-- C5 (counterexample): permuting the input can change the score.  The lists
`exC5a` and `exC5b` are permutations of each other (the two simultaneous
time-0 trades are swapped), yet with 51 trades the stable sort puts a
different event at the boundary of the last-50 window used by the
fresh-wallet-surge check, so the scores differ (480/49 vs 48/5). -/
theorem order_dependence_counterexample :
    exC5a.Perm exC5b ∧
      (analyze exC5a none 1000000).manipulation_score ≠
        (analyze exC5b none 1000000).manipulation_score := by
  constructor
  · exact List.Perm.swap (⟨"B", 0, none⟩ : TradeEvent) (⟨"A", 0, none⟩ : TradeEvent) exC5rest
  · decide


/-- C8: for a non-empty trade list, if among the distinct wallets of the last
up-to-50 trades (in ascending time order, first occurrence kept) the fraction
first seen less than 24 h before `now` exceeds 0.5 and there are at least 10
such wallets, then the fresh-wallet-surge reason is emitted and the final
wallet-age risk is at least that fraction and at least its prior value
(lines 390-411: the update is `min(1, max(wallet_age_risk, recent_fraction))`,
which never lowers the risk). -/
theorem fresh_wallet_surge (l : List TradeEvent) (facts : Option TokenFacts) (now : ℚ)
    (hl : l ≠ []) (hf : 1/2 < recentFraction now (sortTs l))
    (hc : 10 ≤ (recentUniqueWallets (sortTs l)).length) :
    Reason.freshWalletSurge (recentNewCount now (sortTs l))
        (recentUniqueWallets (sortTs l)).length ∈ (analyze l facts now).reasons ∧
      recentFraction now (sortTs l) ≤ walletAgeRisk now (sortTs l) ∧
      walletAgeRisk0 now (sortTs l) ≤ walletAgeRisk now (sortTs l) := by
  have hsf : surgeFires now (sortTs l) = true := by
    rw [surgeFires]
    simp only [Bool.and_eq_true, decide_eq_true_eq]
    exact ⟨hf, hc⟩
  have hlen : ¬((sortTs l).length = 0) := by
    rw [sortTs_length]
    exact fun h => hl (List.eq_nil_of_length_eq_zero h)
  have hwar : walletAgeRisk now (sortTs l)
      = pymin 1 (pymax (walletAgeRisk0 now (sortTs l)) (recentFraction now (sortTs l))) := by
    rw [walletAgeRisk, if_neg hlen, if_pos hsf]
  refine ⟨?_, ?_, ?_⟩
  · have hmem : Reason.freshWalletSurge (recentNewCount now (sortTs l))
        (recentUniqueWallets (sortTs l)).length ∈ reasonsRaw now (sortTs l) facts := by
      rw [reasonsRaw, if_neg hlen, hsf]
      simp
    have hreq : (analyze l facts now).reasons = reasonsOf now (sortTs l) facts := rfl
    rw [hreq, reasonsOf, if_neg (List.ne_nil_of_mem hmem)]
    exact hmem
  · rw [hwar, pymin_eq_min, pymax_eq_max]
    exact le_min (recentFraction_le_one now _) (le_max_right _ _)
  · rw [hwar, pymin_eq_min, pymax_eq_max]
    exact le_min (walletAgeRisk0_le_one now _) (le_max_left _ _)

theorem fresh_wallet_surge_witness :
    Reason.freshWalletSurge (recentNewCount 10000 (sortTs wC8))
        (recentUniqueWallets (sortTs wC8)).length ∈ (analyze wC8 none 10000).reasons :=
  (fresh_wallet_surge wC8 none 10000 (by decide) (by decide) (by decide)).1

theorem getLastD_mem : ∀ (s : List TradeEvent) (d : TradeEvent), s ≠ [] → s.getLastD d ∈ s := by
  intro s
  induction s with
  | nil => intro d h; exact absurd rfl h
  | cons a t ih =>
    intro d _
    rw [List.getLastD_cons]
    cases t with
    | nil => simp [List.getLastD]
    | cons b u => exact List.mem_cons_of_mem a (ih a (by simp))

theorem ts_le_getLastD : ∀ (s : List TradeEvent) (d : TradeEvent), s.Sorted tsLe →
    ∀ x ∈ s, x.timestamp ≤ (s.getLastD d).timestamp := by
  intro s
  induction s with
  | nil => intro d _ x hx; exact absurd hx (by simp)
  | cons a t ih =>
    intro d hs x hx
    rw [List.getLastD_cons]
    rcases List.mem_cons.mp hx with rfl | hxt
    · cases t with
      | nil => simp [List.getLastD]
      | cons b u =>
        have hmem : (b :: u).getLastD x ∈ b :: u := getLastD_mem (b :: u) x (by simp)
        exact (List.sorted_cons.mp hs).1 _ hmem
    · exact ih a (List.sorted_cons.mp hs).2 x hxt

/-- C9: the high-volume/low-diversity signal is binary, and fires exactly when
at least 8 trades have timestamps within 5 minutes (inclusive) of the latest
trade timestamp while those trades come from fewer than 10 distinct wallets
(lines 413-425); `latestTs` is indeed the maximum trade timestamp. -/
theorem hvld_binary_iff (l : List TradeEvent) (hl : l ≠ []) :
    (hvldRisk (sortTs l) = 0 ∨ hvldRisk (sortTs l) = 1) ∧
      (hvldRisk (sortTs l) = 1 ↔
        8 ≤ l.countP (fun e => decide (latestTs (sortTs l) - 300 ≤ e.timestamp)) ∧
          ((l.filter (fun e => decide (latestTs (sortTs l) - 300 ≤ e.timestamp))).map
              (·.wallet)).toFinset.card < 10) ∧
      latestTs (sortTs l) ∈ l.map (·.timestamp) ∧
      (∀ x ∈ l.map (·.timestamp), x ≤ latestTs (sortTs l)) := by
  have hlen : ¬((sortTs l).length = 0) := by
    rw [sortTs_length]
    exact fun h => hl (List.eq_nil_of_length_eq_zero h)
  have hsne : sortTs l ≠ [] := sortTs_ne_nil hl
  have hcount : txCount5m (sortTs l)
      = l.countP (fun e => decide (latestTs (sortTs l) - 300 ≤ e.timestamp)) := by
    rw [txCount5m, last5m, ← List.countP_eq_length_filter]
    exact List.Perm.countP_eq _ (sortTs_perm l)
  have hfilter : ((last5m (sortTs l)).map (·.wallet)).toFinset
      = ((l.filter (fun e => decide (latestTs (sortTs l) - 300 ≤ e.timestamp))).map
          (·.wallet)).toFinset := by
    have hperm := ((sortTs_perm l).filter
      (fun e => decide (latestTs (sortTs l) - 300 ≤ e.timestamp))).map (·.wallet)
    ext x
    simp only [List.mem_toFinset]
    exact hperm.mem_iff
  have hbuy : (uniqueBuyers5m (sortTs l)).length
      = ((l.filter (fun e => decide (latestTs (sortTs l) - 300 ≤ e.timestamp))).map
          (·.wallet)).toFinset.card := by
    rw [uniqueBuyers5m, dedupFirst_length, hfilter]
  have hfires_iff : hvldFires (sortTs l) = true ↔
      (8 ≤ l.countP (fun e => decide (latestTs (sortTs l) - 300 ≤ e.timestamp)) ∧
        ((l.filter (fun e => decide (latestTs (sortTs l) - 300 ≤ e.timestamp))).map
            (·.wallet)).toFinset.card < 10) := by
    rw [hvldFires, if_neg hlen]
    simp only [Bool.and_eq_true, decide_eq_true_eq]
    rw [hcount, hbuy]
  refine ⟨?_, ?_, ?_, ?_⟩
  · rw [hvldRisk]
    by_cases hb : hvldFires (sortTs l) = true
    · right; rw [if_pos hb]
    · left; rw [if_neg hb]
  · rw [← hfires_iff, hvldRisk]
    constructor
    · intro h1
      by_contra hb
      rw [if_neg hb] at h1
      exact absurd h1 (by norm_num)
    · intro hb
      rw [if_pos hb]
  · rw [latestTs]
    exact List.mem_map_of_mem (·.timestamp)
      ((sortTs_perm l).mem_iff.mp (getLastD_mem (sortTs l) default hsne))
  · intro x hx
    rcases List.mem_map.mp hx with ⟨e, hel, rfl⟩
    exact ts_le_getLastD (sortTs l) default (sortTs_sorted l) e
      ((sortTs_perm l).mem_iff.mpr hel)

theorem hvld_binary_iff_witness :
    8 ≤ wC9.countP (fun e => decide (latestTs (sortTs wC9) - 300 ≤ e.timestamp)) ∧
      ((wC9.filter (fun e => decide (latestTs (sortTs wC9) - 300 ≤ e.timestamp))).map
          (·.wallet)).toFinset.card < 10 :=
  ((hvld_binary_iff wC9 (by decide)).2.1).mp (by decide)

theorem map_snd_sortedWallets (l : List TradeEvent) :
    (sortedWallets (sortTs l)).map (·.2) = specCountsSorted l := by
  have hA1 : ((sortedWallets (sortTs l)).map (·.2)).Perm
      ((walletTradeCounts (sortTs l)).map (·.2)) :=
    (List.perm_insertionSort cntGe (walletTradeCounts (sortTs l))).map (·.2)
  have hA2 : (walletTradeCounts (sortTs l)).map (·.2)
      = (uniqueWallets (sortTs l)).map (countWallet (sortTs l)) := by
    rw [walletTradeCounts, List.map_map]
    rfl
  have hwperm : (uniqueWallets (sortTs l)).Perm ((l.map (·.wallet)).dedup) := by
    refine (dedupFirst_perm_dedup _).trans ?_
    refine List.perm_of_nodup_nodup_toFinset_eq (List.nodup_dedup _) (List.nodup_dedup _) ?_
    ext x
    simp only [List.mem_toFinset, List.mem_dedup]
    exact ((sortTs_perm l).map (·.wallet)).mem_iff
  have hcw : ((l.map (·.wallet)).dedup.map (countWallet (sortTs l))) = specWalletCounts l := by
    rw [specWalletCounts]
    refine List.map_congr_left (fun w _ => ?_)
    rw [countWallet]
    exact ((sortTs_perm l).filter (fun e => decide (e.wallet = w))).length_eq
  have hperm : ((sortedWallets (sortTs l)).map (·.2)).Perm (specWalletCounts l) := by
    refine (hA1.trans ?_)
    rw [hA2, ← hcw]
    exact hwperm.map (countWallet (sortTs l))
  have hsortA : ((sortedWallets (sortTs l)).map (·.2)).Sorted natGe := by
    refine List.Pairwise.map (fun p : String × ℕ => p.2) (fun a b hab => hab) ?_
    exact List.sorted_insertionSort cntGe (walletTradeCounts (sortTs l))
  have hsortB : (specCountsSorted l).Sorted natGe :=
    List.sorted_insertionSort natGe (specWalletCounts l)
  exact List.eq_of_perm_of_sorted
    (hperm.trans (List.perm_insertionSort natGe (specWalletCounts l)).symm) hsortA hsortB

theorem topClusterTrades_eq_specTop3_sum (l : List TradeEvent) :
    topClusterTrades (sortTs l) = (specTop3 l).sum := by
  rw [topClusterTrades, topCluster, specTop3, ← map_snd_sortedWallets, List.map_take]

/-- C7: the wash-trading signal is binary and fires exactly when the three
largest per-wallet trade counts sum to at least 0.6 of all trades and each of
those top wallets individually traded at least twice (lines 464-483); when it
fires it contributes exactly +10 to the additive modifier of lines 486-491. -/
theorem wash_trading_iff (l : List TradeEvent) (hl : l ≠ []) :
    (washRisk (sortTs l) = 1 ↔
        ((3 : ℚ)/5 ≤ ((specTop3 l).sum : ℚ) / (l.length : ℚ) ∧ ∀ c ∈ specTop3 l, 2 ≤ c)) ∧
      (washRisk (sortTs l) = 0 ∨ washRisk (sortTs l) = 1) ∧
      (∀ facts now, washRisk (sortTs l) = 1 →
        modifier now (sortTs l) facts
          = walletAgeRisk now (sortTs l) * 10 + hvldRisk (sortTs l) * 20
            + lpRiskOf facts * 10 + 10) := by
  have hlen : ¬((sortTs l).length = 0) := by
    rw [sortTs_length]
    exact fun h => hl (List.eq_nil_of_length_eq_zero h)
  have hfrac : washFraction (sortTs l) = ((specTop3 l).sum : ℚ) / (l.length : ℚ) := by
    rw [washFraction, if_neg hlen, topClusterTrades_eq_specTop3_sum, sortTs_length]
  have hall : ((topCluster (sortTs l)).all (fun p => decide (2 ≤ p.2)) = true)
      ↔ ∀ c ∈ specTop3 l, 2 ≤ c := by
    rw [List.all_eq_true]
    have hmap : (topCluster (sortTs l)).map (·.2) = specTop3 l := by
      rw [topCluster, specTop3, ← map_snd_sortedWallets, List.map_take]
    rw [← hmap, List.forall_mem_map]
    simp only [decide_eq_true_eq]
  have hfires : washFires (sortTs l) = true ↔
      ((3 : ℚ)/5 ≤ ((specTop3 l).sum : ℚ) / (l.length : ℚ) ∧ ∀ c ∈ specTop3 l, 2 ≤ c) := by
    rw [washFires, Bool.and_eq_true, decide_eq_true_eq, hfrac, hall]
  refine ⟨?_, ?_, ?_⟩
  · rw [← hfires, washRisk]
    constructor
    · intro h1
      by_contra hb
      rw [if_neg hb] at h1
      exact absurd h1 (by norm_num)
    · intro hb
      rw [if_pos hb]
  · rw [washRisk]
    by_cases hb : washFires (sortTs l) = true
    · right; rw [if_pos hb]
    · left; rw [if_neg hb]
  · intro facts now h1
    rw [modifier, h1]
    ring

theorem wash_trading_iff_witness :
    (3 : ℚ)/5 ≤ ((specTop3 wC7).sum : ℚ) / (wC7.length : ℚ) ∧ ∀ c ∈ specTop3 wC7, 2 ≤ c :=
  ((wash_trading_iff wC7 (by decide)).1).mp (by decide)

theorem timestamps_sorted (l : List TradeEvent) :
    ((sortTs l).map (·.timestamp)).Sorted (· ≤ ·) :=
  List.Pairwise.map (fun e : TradeEvent => e.timestamp) (fun _ _ hab => hab) (sortTs_sorted l)

theorem getD_mono_of_sorted {ts : List ℚ} (hs : ts.Sorted (· ≤ ·)) {i j : ℕ}
    (hij : i ≤ j) (hj : j < ts.length) : ts.getD i 0 ≤ ts.getD j 0 := by
  have hi : i < ts.length := lt_of_le_of_lt hij hj
  rcases eq_or_lt_of_le hij with rfl | hlt
  · exact le_refl _
  · rw [List.getD_eq_getElem ts 0 hi, List.getD_eq_getElem ts 0 hj]
    have := List.Sorted.rel_get_of_lt hs (a := ⟨i, hi⟩) (b := ⟨j, hj⟩) (by exact hlt)
    simpa using this

theorem minStart_le_self (ts : List ℚ) (e : ℕ) : minStart ts e ≤ e :=
  Nat.find_min' _ (by rw [sub_self]; norm_num)

theorem minStart_spec (ts : List ℚ) (e : ℕ) :
    ts.getD e 0 - ts.getD (minStart ts e) 0 ≤ 2 := by
  have h := Nat.find_spec (p := fun s => ts.getD e 0 - ts.getD s 0 ≤ 2)
    ⟨e, by simp only []; rw [sub_self]; norm_num⟩
  exact h

theorem minStart_min (ts : List ℚ) (e : ℕ) {s : ℕ} (h : s < minStart ts e) :
    2 < ts.getD e 0 - ts.getD s 0 :=
  not_le.mp (Nat.find_min _ h)

theorem minStart_mono {ts : List ℚ} (hs : ts.Sorted (· ≤ ·)) {e e' : ℕ}
    (hee' : e ≤ e') (he' : e' < ts.length) : minStart ts e ≤ minStart ts e' := by
  apply Nat.find_min'
  have h1 : ts.getD e 0 ≤ ts.getD e' 0 := getD_mono_of_sorted hs hee' he'
  have h2 := minStart_spec ts e'
  linarith

theorem advanceStart_eq (ts : List ℚ) (e : ℕ) :
    ∀ fuel start, start ≤ minStart ts e → minStart ts e ≤ start + fuel →
      advanceStart ts e start fuel = minStart ts e := by
  intro fuel
  induction fuel with
  | zero =>
    intro start h1 h2
    rw [advanceStart]
    omega
  | succ fuel ih =>
    intro start h1 h2
    rw [advanceStart]
    rcases eq_or_lt_of_le h1 with heq | hlt
    · rw [if_neg (not_lt.mpr (heq ▸ minStart_spec ts e))]
      exact heq
    · rw [if_pos (minStart_min ts e hlt)]
      exact ih (start + 1) hlt (by omega)

theorem ite_lt_max (a b : ℕ) : (if a < b then b else a) = max a b := by
  rcases lt_or_ge a b with h | h
  · rw [if_pos h, Nat.max_eq_right (le_of_lt h)]
  · rw [if_neg (not_lt.mpr h), Nat.max_eq_left h]

theorem twoPointerGo_eq {ts : List ℚ} (hs : ts.Sorted (· ≤ ·)) :
    ∀ fuel e start maxW, e + fuel = ts.length → start ≤ minStart ts e →
      twoPointerGo ts start e maxW fuel = max maxW (windowMaxFrom ts e fuel) := by
  intro fuel
  induction fuel with
  | zero =>
    intro e start maxW he hst
    rw [twoPointerGo, windowMaxFrom, Nat.max_eq_left (Nat.zero_le maxW)]
  | succ fuel ih =>
    intro e start maxW he hst
    have hadv : advanceStart ts e start (e - start) = minStart ts e :=
      advanceStart_eq ts e (e - start) start hst
        (by have := minStart_le_self ts e; omega)
    rw [twoPointerGo]
    simp only [hadv]
    rcases Nat.eq_zero_or_pos fuel with rfl | hfpos
    · rw [twoPointerGo, windowMaxFrom, windowMaxFrom, ite_lt_max, Nat.max_zero]
    · have hnext : minStart ts e ≤ minStart ts (e + 1) :=
        minStart_mono hs (Nat.le_succ e) (by omega)
      rw [ih (e + 1) (minStart ts e) _ (by omega) hnext, windowMaxFrom, ite_lt_max,
        Nat.max_assoc]

theorem windowMaxFrom_ge_one {ts : List ℚ} (hne : ts ≠ []) :
    1 ≤ windowMaxFrom ts 0 ts.length := by
  obtain ⟨m, hm⟩ : ∃ m, ts.length = m + 1 :=
    ⟨ts.length - 1, by have := List.length_pos.mpr hne; omega⟩
  rw [hm, windowMaxFrom]
  exact le_trans (by omega) (le_max_left (0 - minStart ts 0 + 1) _)

theorem maxInWindow_eq {ts : List ℚ} (hs : ts.Sorted (· ≤ ·)) (hne : ts ≠ []) :
    maxInWindow ts = windowMaxFrom ts 0 ts.length := by
  rw [maxInWindow, twoPointerGo_eq hs ts.length 0 0 1 (by omega) (Nat.zero_le _)]
  exact Nat.max_eq_right (windowMaxFrom_ge_one hne)

theorem wc_le_wMF (ts : List ℚ) :
    ∀ fuel e e', e ≤ e' → e' < e + fuel →
      e' - minStart ts e' + 1 ≤ windowMaxFrom ts e fuel := by
  intro fuel
  induction fuel with
  | zero => intro e e' h1 h2; omega
  | succ fuel ih =>
    intro e e' h1 h2
    rw [windowMaxFrom]
    rcases eq_or_lt_of_le h1 with rfl | hlt
    · exact le_max_left _ _
    · exact le_trans (ih (e + 1) e' hlt (by omega)) (le_max_right _ _)

theorem wMF_achieved (ts : List ℚ) :
    ∀ fuel e, 0 < fuel →
      ∃ e', e ≤ e' ∧ e' < e + fuel ∧
        windowMaxFrom ts e fuel = e' - minStart ts e' + 1 := by
  intro fuel
  induction fuel with
  | zero => intro e h; omega
  | succ fuel ih =>
    intro e _
    rcases Nat.eq_zero_or_pos fuel with rfl | hfpos
    · refine ⟨e, le_refl e, by omega, ?_⟩
      rw [windowMaxFrom, windowMaxFrom, Nat.max_zero]
    · obtain ⟨e', h1, h2, h3⟩ := ih (e + 1) hfpos
      rcases le_total (windowMaxFrom ts (e + 1) fuel) (e - minStart ts e + 1) with hle | hle
      · exact ⟨e, le_refl e, by omega, by rw [windowMaxFrom, Nat.max_eq_left hle]⟩
      · exact ⟨e', by omega, by omega, by rw [windowMaxFrom, Nat.max_eq_right hle, h3]⟩

theorem countP_eq_card_filter_range {α : Type} (p : α → Bool) (d : α) :
    ∀ l : List α, l.countP p
      = ((Finset.range l.length).filter (fun i => p (l.getD i d) = true)).card := by
  intro l
  induction l with
  | nil => simp
  | cons a l ih =>
    rw [List.countP_cons, Finset.card_filter, List.length_cons, Finset.sum_range_succ']
    have h0 : (a :: l).getD 0 d = a := rfl
    have hsucc : ∀ i : ℕ, (a :: l).getD (i + 1) d = l.getD i d := fun i => rfl
    simp only [h0, hsucc]
    rw [← Finset.card_filter, ← ih]

theorem countInSpanQ_le_maxInWindow {ts : List ℚ} (hs : ts.Sorted (· ≤ ·)) (hne : ts ≠ [])
    (t : ℚ) : countInSpanQ ts t ≤ maxInWindow ts := by
  rw [maxInWindow_eq hs hne, countInSpanQ, countP_eq_card_filter_range _ 0 ts]
  set S := (Finset.range ts.length).filter
    (fun i => (decide (t ≤ ts.getD i 0 ∧ ts.getD i 0 ≤ t + 2)) = true) with hSdef
  have hmem : ∀ i ∈ S, i < ts.length ∧ t ≤ ts.getD i 0 ∧ ts.getD i 0 ≤ t + 2 := by
    intro i hiS
    rw [hSdef, Finset.mem_filter, Finset.mem_range, decide_eq_true_eq] at hiS
    exact ⟨hiS.1, hiS.2⟩
  rcases S.eq_empty_or_nonempty with hE | hNE
  · rw [hE, Finset.card_empty]
    exact Nat.zero_le _
  · have hloS : S.min' hNE ∈ S := S.min'_mem hNE
    have hhiS : S.max' hNE ∈ S := S.max'_mem hNE
    have hlohi : S.min' hNE ≤ S.max' hNE := S.min'_le (S.max' hNE) hhiS
    have hIcc : S = Finset.Icc (S.min' hNE) (S.max' hNE) := by
      ext i
      rw [Finset.mem_Icc]
      constructor
      · intro hiS
        exact ⟨S.min'_le i hiS, S.le_max' i hiS⟩
      · rintro ⟨h1, h2⟩
        have hin : i < ts.length := lt_of_le_of_lt h2 (hmem _ hhiS).1
        rw [hSdef, Finset.mem_filter, Finset.mem_range, decide_eq_true_eq]
        refine ⟨hin, ⟨le_trans (hmem _ hloS).2.1 (getD_mono_of_sorted hs h1 hin), ?_⟩⟩
        exact le_trans (getD_mono_of_sorted hs h2 (hmem _ hhiS).1) (hmem _ hhiS).2.2
    have hms : minStart ts (S.max' hNE) ≤ S.min' hNE := by
      apply Nat.find_min'
      have h1 := (hmem _ hhiS).2.2
      have h2 := (hmem _ hloS).2.1
      linarith
    have hcard : S.card = S.max' hNE + 1 - S.min' hNE := by
      have h := congrArg Finset.card hIcc
      rw [Nat.card_Icc] at h
      exact h
    rw [hcard]
    exact le_trans (by omega)
      (wc_le_wMF ts ts.length 0 (S.max' hNE) (Nat.zero_le _) (by simpa using (hmem _ hhiS).1))

theorem exists_countInSpanQ_eq {ts : List ℚ} (hs : ts.Sorted (· ≤ ·)) (hne : ts ≠ []) :
    ∃ t : ℚ, countInSpanQ ts t = maxInWindow ts := by
  have hlen : 0 < ts.length := List.length_pos.mpr hne
  obtain ⟨e', h1, h2, h3⟩ := wMF_achieved ts ts.length 0 hlen
  have hen : e' < ts.length := by omega
  refine ⟨ts.getD e' 0 - 2, le_antisymm (countInSpanQ_le_maxInWindow hs hne _) ?_⟩
  rw [maxInWindow_eq hs hne, h3, countInSpanQ, countP_eq_card_filter_range _ 0 ts]
  have hsub : Finset.Icc (minStart ts e') e' ⊆ (Finset.range ts.length).filter
      (fun i => (decide (ts.getD e' 0 - 2 ≤ ts.getD i 0 ∧
        ts.getD i 0 ≤ ts.getD e' 0 - 2 + 2)) = true) := by
    intro i hi
    rw [Finset.mem_Icc] at hi
    have hin : i < ts.length := lt_of_le_of_lt hi.2 hen
    rw [Finset.mem_filter, Finset.mem_range, decide_eq_true_eq]
    refine ⟨hin, ?_, ?_⟩
    · have hspec := minStart_spec ts e'
      have hmono := getD_mono_of_sorted hs hi.1 hin
      linarith
    · have hmono := getD_mono_of_sorted hs hi.2 hen
      linarith
  have hcard := Finset.card_le_card hsub
  rw [Nat.card_Icc] at hcard
  have hms := minStart_le_self ts e'
  omega

theorem countInSpan_eq (l : List TradeEvent) (t : ℚ) :
    countInSpan l t = countInSpanQ ((sortTs l).map (·.timestamp)) t := by
  rw [countInSpanQ, List.countP_map, countInSpan]
  exact (List.Perm.countP_eq _ (sortTs_perm l)).symm

theorem maxInWindow_singleton (x : ℚ) : maxInWindow [x] = 1 := rfl

/-- C6: for a non-empty trade list, the two-pointer value `max_in_window`
computed at lines 329-338 is exactly the largest number of trades whose
timestamps all fall within some 2-second span (boundaries inclusive), and the
sequential risk follows the piecewise mapping of lines 343-348 applied to
`clustered_fraction = max_in_window / total`; in particular a single trade
gives `clustered_fraction = 1` and `sequential_risk = 1`. -/
theorem sequential_risk_spec (l : List TradeEvent) (hl : l ≠ []) :
    IsGreatest {k : ℕ | ∃ t : ℚ, countInSpan l t = k}
        (maxInWindow ((sortTs l).map (·.timestamp))) ∧
      sequentialRisk (sortTs l) =
        (if (maxInWindow ((sortTs l).map (·.timestamp)) : ℚ) / (l.length : ℚ) ≤ 1/2 then 0
         else if 1 ≤ (maxInWindow ((sortTs l).map (·.timestamp)) : ℚ) / (l.length : ℚ) then 1
         else ((maxInWindow ((sortTs l).map (·.timestamp)) : ℚ) / (l.length : ℚ) - 1/2)
            / (1/2)) ∧
      (l.length = 1 →
        (maxInWindow ((sortTs l).map (·.timestamp)) : ℚ) / (l.length : ℚ) = 1 ∧
          sequentialRisk (sortTs l) = 1) := by
  have hlen : ¬((sortTs l).length = 0) := by
    rw [sortTs_length]
    exact fun h => hl (List.eq_nil_of_length_eq_zero h)
  have hne : ((sortTs l).map (·.timestamp)) ≠ [] := by
    intro h
    exact hlen (by rw [← List.length_map (sortTs l) (·.timestamp), h, List.length_nil])
  have hs := timestamps_sorted l
  refine ⟨⟨?_, ?_⟩, ?_, ?_⟩
  · obtain ⟨t, ht⟩ := exists_countInSpanQ_eq hs hne
    exact ⟨t, (countInSpan_eq l t).trans ht⟩
  · rintro k ⟨t, rfl⟩
    rw [countInSpan_eq]
    exact countInSpanQ_le_maxInWindow hs hne t
  · have hclu : clusteredFraction (sortTs l)
        = (maxInWindow ((sortTs l).map (·.timestamp)) : ℚ) / (l.length : ℚ) := by
      rw [clusteredFraction, sortTs_length]
    rw [sequentialRisk, if_neg hlen, hclu]
  · intro h1
    obtain ⟨a, ha⟩ := List.length_eq_one.mp (show (sortTs l).length = 1 by
      rw [sortTs_length]; exact h1)
    have hM : maxInWindow ((sortTs l).map (·.timestamp)) = 1 := by
      rw [ha, List.map_singleton]
      exact maxInWindow_singleton a.timestamp
    have hcf : clusteredFraction (sortTs l) = 1 := by
      rw [clusteredFraction, hM, sortTs_length, h1]
      norm_num
    constructor
    · rw [hM, h1]
      norm_num
    · rw [sequentialRisk, if_neg hlen, hcf]
      norm_num

theorem sequential_risk_spec_witness :
    IsGreatest {k : ℕ | ∃ t : ℚ, countInSpan wC6 t = k}
      (maxInWindow ((sortTs wC6).map (·.timestamp))) :=
  (sequential_risk_spec wC6 (by decide)).1

theorem map_ts_sortTs_eq {l₁ l₂ : List TradeEvent} (hp : l₁.Perm l₂) :
    (sortTs l₁).map (·.timestamp) = (sortTs l₂).map (·.timestamp) := by
  have hperm : ((sortTs l₁).map (·.timestamp)).Perm ((sortTs l₂).map (·.timestamp)) :=
    (((sortTs_perm l₁).trans (hp.trans (sortTs_perm l₂).symm)).map (·.timestamp))
  exact List.eq_of_perm_of_sorted hperm (timestamps_sorted l₁) (timestamps_sorted l₂)

theorem sortTs_perm_sortTs {l₁ l₂ : List TradeEvent} (hp : l₁.Perm l₂) :
    (sortTs l₁).Perm (sortTs l₂) :=
  (sortTs_perm l₁).trans (hp.trans (sortTs_perm l₂).symm)

theorem dedupFirst_perm_of_perm {A B : List String} (hp : A.Perm B) :
    (dedupFirst A).Perm (dedupFirst B) := by
  refine List.perm_of_nodup_nodup_toFinset_eq (nodup_dedupFirst A) (nodup_dedupFirst B) ?_
  rw [dedupFirst_toFinset, dedupFirst_toFinset]
  ext x
  simp only [List.mem_toFinset]
  exact hp.mem_iff

theorem foldl_pymin_mem : ∀ (ts : List ℚ) (t : ℚ), ts.foldl pymin t ∈ t :: ts := by
  intro ts
  induction ts with
  | nil => intro t; simp
  | cons a ts ih =>
    intro t
    rw [List.foldl_cons]
    rcases List.mem_cons.mp (ih (pymin t a)) with h | h
    · rw [h, pymin]
      split
      · exact List.mem_cons_self t (a :: ts)
      · exact List.mem_cons_of_mem t (List.mem_cons_self a ts)
    · exact List.mem_cons_of_mem t (List.mem_cons_of_mem a h)

theorem foldl_pymin_le : ∀ (ts : List ℚ) (t : ℚ), ∀ x ∈ t :: ts, ts.foldl pymin t ≤ x := by
  intro ts
  induction ts with
  | nil =>
    intro t x hx
    rw [List.mem_singleton.mp hx]
    exact le_refl _
  | cons a ts ih =>
    intro t x hx
    rw [List.foldl_cons]
    have hmin_t : pymin t a ≤ t := by rw [pymin_eq_min]; exact min_le_left t a
    have hmin_a : pymin t a ≤ a := by rw [pymin_eq_min]; exact min_le_right t a
    have hhead : ts.foldl pymin (pymin t a) ≤ pymin t a :=
      ih (pymin t a) _ (List.mem_cons_self _ ts)
    rcases List.mem_cons.mp hx with rfl | hx2
    · exact le_trans hhead hmin_t
    · rcases List.mem_cons.mp hx2 with rfl | hx3
      · exact le_trans hhead hmin_a
      · exact ih (pymin t a) x (List.mem_cons_of_mem _ hx3)

theorem firstTs_perm_eq {s₁ s₂ : List TradeEvent} (hp : s₁.Perm s₂) (w : String) :
    firstTs s₁ w = firstTs s₂ w := by
  have hfp : ((s₁.filter (fun e => decide (e.wallet = w))).map (·.timestamp)).Perm
      ((s₂.filter (fun e => decide (e.wallet = w))).map (·.timestamp)) :=
    (hp.filter (fun e => decide (e.wallet = w))).map (·.timestamp)
  rw [firstTs, firstTs]
  rcases hm1 : (s₁.filter (fun e => decide (e.wallet = w))).map (·.timestamp) with _ | ⟨t₁, r₁⟩
  · rcases hm2 : (s₂.filter (fun e => decide (e.wallet = w))).map (·.timestamp) with _ | ⟨t₂, r₂⟩
    · rw [hm1, hm2]
    · rw [hm1, hm2] at hfp
      exact absurd hfp.nil_eq (by simp)
  · rcases hm2 : (s₂.filter (fun e => decide (e.wallet = w))).map (·.timestamp) with _ | ⟨t₂, r₂⟩
    · rw [hm1, hm2] at hfp
      exact absurd hfp.symm.nil_eq (by simp)
    · rw [hm1, hm2] at hfp
      rw [hm1, hm2]
      have h1 : r₁.foldl pymin t₁ ∈ t₂ :: r₂ := hfp.mem_iff.mp (foldl_pymin_mem r₁ t₁)
      have h2 : r₂.foldl pymin t₂ ∈ t₁ :: r₁ := hfp.mem_iff.mpr (foldl_pymin_mem r₂ t₂)
      exact le_antisymm (foldl_pymin_le r₁ t₁ _ h2) (foldl_pymin_le r₂ t₂ _ h1)

theorem isFresh_perm_eq {s₁ s₂ : List TradeEvent} (hp : s₁.Perm s₂) (now : ℚ) (w : String) :
    isFresh now s₁ w = isFresh now s₂ w := by
  rw [isFresh, isFresh, firstTs_perm_eq hp]

theorem uniqueWallets_perm {s₁ s₂ : List TradeEvent} (hp : s₁.Perm s₂) :
    (uniqueWallets s₁).Perm (uniqueWallets s₂) :=
  dedupFirst_perm_of_perm (hp.map (·.wallet))

theorem newWalletCount_eq {s₁ s₂ : List TradeEvent} (hp : s₁.Perm s₂) (now : ℚ) :
    newWalletCount now s₁ = newWalletCount now s₂ := by
  rw [newWalletCount, newWalletCount,
    List.filter_congr (fun w _ => isFresh_perm_eq hp now w)]
  exact ((uniqueWallets_perm hp).filter (isFresh now s₂)).length_eq

theorem walletAgeRisk0_eq {s₁ s₂ : List TradeEvent} (hp : s₁.Perm s₂) (now : ℚ) :
    walletAgeRisk0 now s₁ = walletAgeRisk0 now s₂ := by
  rw [walletAgeRisk0, walletAgeRisk0, newWalletFraction, newWalletFraction,
    newWalletCount_eq hp now, (uniqueWallets_perm hp).length_eq]

theorem getLastD_timestamp_map :
    ∀ (s : List TradeEvent) (d : TradeEvent),
      (s.getLastD d).timestamp = (s.map (·.timestamp)).getLastD d.timestamp := by
  intro s
  induction s with
  | nil => intro d; rfl
  | cons a t ih =>
    intro d
    rw [List.getLastD_cons, List.map_cons, List.getLastD_cons, ih a]

theorem latestTs_eq {l₁ l₂ : List TradeEvent} (hp : l₁.Perm l₂) :
    latestTs (sortTs l₁) = latestTs (sortTs l₂) := by
  rw [latestTs, latestTs, getLastD_timestamp_map, getLastD_timestamp_map,
    map_ts_sortTs_eq hp]

theorem txCount5m_eq {l₁ l₂ : List TradeEvent} (hp : l₁.Perm l₂) :
    txCount5m (sortTs l₁) = txCount5m (sortTs l₂) := by
  rw [txCount5m, txCount5m, last5m, last5m, latestTs_eq hp,
    ← List.countP_eq_length_filter, ← List.countP_eq_length_filter]
  exact (sortTs_perm_sortTs hp).countP_eq _

theorem uniqueBuyers5m_len_eq {l₁ l₂ : List TradeEvent} (hp : l₁.Perm l₂) :
    (uniqueBuyers5m (sortTs l₁)).length = (uniqueBuyers5m (sortTs l₂)).length := by
  rw [uniqueBuyers5m, uniqueBuyers5m, last5m, last5m, latestTs_eq hp]
  exact (dedupFirst_perm_of_perm (((sortTs_perm_sortTs hp).filter _).map (·.wallet))).length_eq

theorem hvldRisk_eq {l₁ l₂ : List TradeEvent} (hp : l₁.Perm l₂) :
    hvldRisk (sortTs l₁) = hvldRisk (sortTs l₂) := by
  have hlen : (sortTs l₁).length = (sortTs l₂).length := (sortTs_perm_sortTs hp).length_eq
  rw [hvldRisk, hvldRisk, hvldFires, hvldFires, hlen, txCount5m_eq hp,
    uniqueBuyers5m_len_eq hp]

theorem sequentialRisk_eq {l₁ l₂ : List TradeEvent} (hp : l₁.Perm l₂) :
    sequentialRisk (sortTs l₁) = sequentialRisk (sortTs l₂) := by
  have hlen : (sortTs l₁).length = (sortTs l₂).length := (sortTs_perm_sortTs hp).length_eq
  have hcf : clusteredFraction (sortTs l₁) = clusteredFraction (sortTs l₂) := by
    rw [clusteredFraction, clusteredFraction, map_ts_sortTs_eq hp, hlen]
  rw [sequentialRisk, sequentialRisk, hcf, hlen]

theorem recentWalletsOrdered_of_le50 {s : List TradeEvent} (h50 : s.length ≤ 50) :
    recentWalletsOrdered s = s.map (·.wallet) := by
  rw [recentWalletsOrdered, Nat.sub_eq_zero_of_le h50, List.drop_zero]

theorem recentUniqueWallets_perm_of_le50 {s₁ s₂ : List TradeEvent} (hp : s₁.Perm s₂)
    (h50 : s₁.length ≤ 50) :
    (recentUniqueWallets s₁).Perm (recentUniqueWallets s₂) := by
  rw [recentUniqueWallets, recentUniqueWallets, recentWalletsOrdered_of_le50 h50,
    recentWalletsOrdered_of_le50 (hp.length_eq ▸ h50)]
  exact dedupFirst_perm_of_perm (hp.map (·.wallet))

theorem recentFraction_eq_of_le50 {s₁ s₂ : List TradeEvent} (hp : s₁.Perm s₂)
    (h50 : s₁.length ≤ 50) (now : ℚ) :
    recentFraction now s₁ = recentFraction now s₂ := by
  have hru := recentUniqueWallets_perm_of_le50 hp h50
  rw [recentFraction, recentFraction, recentNewCount, recentNewCount,
    List.filter_congr (fun w _ => isFresh_perm_eq hp now w), hru.length_eq,
    (hru.filter (isFresh now s₂)).length_eq]

theorem walletAgeRisk_eq_of_le50 {s₁ s₂ : List TradeEvent} (hp : s₁.Perm s₂)
    (h50 : s₁.length ≤ 50) (now : ℚ) :
    walletAgeRisk now s₁ = walletAgeRisk now s₂ := by
  have hru := recentUniqueWallets_perm_of_le50 hp h50
  rw [walletAgeRisk, walletAgeRisk, hp.length_eq, surgeFires, surgeFires,
    recentFraction_eq_of_le50 hp h50 now, hru.length_eq, walletAgeRisk0_eq hp now]

theorem specWalletCounts_perm {l₁ l₂ : List TradeEvent} (hp : l₁.Perm l₂) :
    (specWalletCounts l₁).Perm (specWalletCounts l₂) := by
  rw [specWalletCounts, specWalletCounts]
  have hd : ((l₁.map (·.wallet)).dedup).Perm ((l₂.map (·.wallet)).dedup) := by
    refine List.perm_of_nodup_nodup_toFinset_eq (List.nodup_dedup _) (List.nodup_dedup _) ?_
    ext x
    simp only [List.mem_toFinset, List.mem_dedup]
    exact (hp.map (·.wallet)).mem_iff
  have hcong : (l₁.map (·.wallet)).dedup.map
        (fun w => (l₁.filter (fun e => decide (e.wallet = w))).length)
      = (l₁.map (·.wallet)).dedup.map
        (fun w => (l₂.filter (fun e => decide (e.wallet = w))).length) :=
    List.map_congr_left (fun w _ => (hp.filter (fun e => decide (e.wallet = w))).length_eq)
  rw [hcong]
  exact hd.map _

theorem specCountsSorted_eq {l₁ l₂ : List TradeEvent} (hp : l₁.Perm l₂) :
    specCountsSorted l₁ = specCountsSorted l₂ := by
  refine List.eq_of_perm_of_sorted
    ((List.perm_insertionSort natGe _).trans ((specWalletCounts_perm hp).trans
      (List.perm_insertionSort natGe _).symm))
    (List.sorted_insertionSort natGe _) (List.sorted_insertionSort natGe _)

theorem all_decide_two_map_snd :
    ∀ L : List (String × ℕ),
      L.all (fun p => decide (2 ≤ p.2))
        = (L.map (fun p : String × ℕ => p.2)).all (fun c => decide (2 ≤ c)) := by
  intro L
  induction L with
  | nil => rfl
  | cons a t ih => rw [List.map_cons, List.all_cons, List.all_cons, ih]

theorem washRisk_eq {l₁ l₂ : List TradeEvent} (hp : l₁.Perm l₂) :
    washRisk (sortTs l₁) = washRisk (sortTs l₂) := by
  have hlen : (sortTs l₁).length = (sortTs l₂).length := (sortTs_perm_sortTs hp).length_eq
  have hst : specTop3 l₁ = specTop3 l₂ := by
    rw [specTop3, specTop3, specCountsSorted_eq hp]
  have htct : topClusterTrades (sortTs l₁) = topClusterTrades (sortTs l₂) := by
    rw [topClusterTrades_eq_specTop3_sum, topClusterTrades_eq_specTop3_sum, hst]
  have hmap1 : (topCluster (sortTs l₁)).map (fun p : String × ℕ => p.2) = specTop3 l₁ := by
    rw [topCluster, specTop3, ← map_snd_sortedWallets, List.map_take]
  have hmap2 : (topCluster (sortTs l₂)).map (fun p : String × ℕ => p.2) = specTop3 l₂ := by
    rw [topCluster, specTop3, ← map_snd_sortedWallets, List.map_take]
  have hall : (topCluster (sortTs l₁)).all (fun p => decide (2 ≤ p.2))
      = (topCluster (sortTs l₂)).all (fun p => decide (2 ≤ p.2)) := by
    rw [all_decide_two_map_snd, all_decide_two_map_snd, hmap1, hmap2, hst]
  rw [washRisk, washRisk, washFires, washFires, washFraction, washFraction, hlen, htct,
    hall]

theorem manipulation_score_eq_of_le50 {l₁ l₂ : List TradeEvent} (hp : l₁.Perm l₂)
    (h50 : l₁.length ≤ 50) (facts : Option TokenFacts) (now : ℚ) :
    (analyze l₁ facts now).manipulation_score
      = (analyze l₂ facts now).manipulation_score := by
  have hps := sortTs_perm_sortTs hp
  have hlen : (sortTs l₁).length = (sortTs l₂).length := hps.length_eq
  have h50s : (sortTs l₁).length ≤ 50 := by
    rw [sortTs_length]
    exact h50
  have hbase : baseRiskScore (sortTs l₁) = baseRiskScore (sortTs l₂) := by
    rw [baseRiskScore, baseRiskScore, hlen, sequentialRisk_eq hp]
  have hmod : modifier now (sortTs l₁) facts = modifier now (sortTs l₂) facts := by
    rw [modifier, modifier, walletAgeRisk_eq_of_le50 hps h50s now, hvldRisk_eq hp,
      washRisk_eq hp]
  have h1 : scoreAfterModifiers now (sortTs l₁) facts
      = scoreAfterModifiers now (sortTs l₂) facts := by
    rw [scoreAfterModifiers, scoreAfterModifiers, hbase, hmod]
  have h2 : scoreAfterHoneypot now (sortTs l₁) facts
      = scoreAfterHoneypot now (sortTs l₂) facts := by
    rw [scoreAfterHoneypot, scoreAfterHoneypot, h1]
  have h3 : scoreAfterTopHolder now (sortTs l₁) facts
      = scoreAfterTopHolder now (sortTs l₂) facts := by
    rw [scoreAfterTopHolder, scoreAfterTopHolder, h2]
  have h4 : scoreAfterZeroFloor now (sortTs l₁) facts
      = scoreAfterZeroFloor now (sortTs l₂) facts := by
    rw [scoreAfterZeroFloor, scoreAfterZeroFloor, hlen, h3]
  have h5 : scoreAfterAuthorityFloor now (sortTs l₁) facts
      = scoreAfterAuthorityFloor now (sortTs l₂) facts := by
    rw [scoreAfterAuthorityFloor, scoreAfterAuthorityFloor, hlen, h4]
  have hfin1 : (analyze l₁ facts now).manipulation_score
      = pymax 0 (pymin 100 (scoreAfterAuthorityFloor now (sortTs l₁) facts)) := rfl
  have hfin2 : (analyze l₂ facts now).manipulation_score
      = pymax 0 (pymin 100 (scoreAfterAuthorityFloor now (sortTs l₂) facts)) := rfl
  rw [hfin1, hfin2, h5]

/-- C5 (amended): permuting the input trade list leaves the manipulation score
unchanged whenever the list has at most 50 trades or the timestamps are
pairwise distinct; with pairwise-distinct timestamps the whole result is
unchanged.  (With duplicated timestamps and more than 50 trades the stable
sort's tie order selects which event drops out of the `norm_tx[-50:]` window
of the fresh-wallet-surge check, and the score can change - see the
counterexample.) -/
theorem order_independence_amended (l₁ l₂ : List TradeEvent) (facts : Option TokenFacts)
    (now : ℚ) (hp : l₁.Perm l₂) :
    (l₁.length ≤ 50 ∨ (l₁.map (·.timestamp)).Nodup →
      (analyze l₁ facts now).manipulation_score
        = (analyze l₂ facts now).manipulation_score) ∧
    ((l₁.map (·.timestamp)).Nodup → analyze l₁ facts now = analyze l₂ facts now) := by
  have hfull : (l₁.map (·.timestamp)).Nodup → analyze l₁ facts now = analyze l₂ facts now := by
    intro hnd
    have hnd₁ : ((sortTs l₁).map (·.timestamp)).Nodup :=
      (((sortTs_perm l₁).map (·.timestamp)).nodup_iff).mpr hnd
    have hsort : sortTs l₁ = sortTs l₂ :=
      sorted_perm_eq_of_nodup_ts (sortTs_sorted l₁) (sortTs_sorted l₂)
        (sortTs_perm_sortTs hp) hnd₁
    simp only [analyze, hsort]
  refine ⟨?_, hfull⟩
  rintro (h50 | hnd)
  · exact manipulation_score_eq_of_le50 hp h50 facts now
  · rw [hfull hnd]

theorem order_independence_amended_witness :
    (analyze wC5p none 0).manipulation_score = (analyze wC5q none 0).manipulation_score :=
  (order_independence_amended wC5p wC5q none 0 (by decide)).1 (Or.inl (by decide))
